import Mathlib

/-!
Verification development for the IATI schema flattening and XSD navigation
engine (`iati/core/schemas.py`).

The markup tree of `lxml.etree` is embedded shallowly: an element has a
fully-qualified tag in Clark notation, an attribute list, a namespace
mapping, and an ordered child list.  Text nodes and tails play no role in
any property considered here and are omitted.
-/

namespace Iati

/-- A markup element: qualified tag, attributes, namespace map, ordered children. -/
structure Element where
  tag : String
  attrs : List (String × String)
  nsmap : List (String × String)
  children : List Element

theorem Element.sizeOf_children_lt (c : Element) : sizeOf c.children < sizeOf c := by
  cases c
  simp only [Element.mk.sizeOf_spec]
  omega

/-- The XML Schema namespace URI.  Modelled from the spec: the module
`iati.core.constants` is not part of the sources given; the spec describes a
process-wide Namespace Registry mapping the structural prefix to the XSD URI. -/
def XSD_URI : String := "http://www.w3.org/2001/XMLSchema"

/-- Clark-notation namespace marker, `iati.core.constants.NAMESPACE`.
Modelled from the spec (constants module not in the sources). -/
def NAMESPACE : String := "\x7b" ++ XSD_URI ++ "\x7d"

/-- `iati.core.constants.NSMAP`.  Modelled from the spec: the Namespace
Registry maps the short structural prefix to the full XSD URI. -/
def NSMAP : List (String × String) := [("xsd", XSD_URI)]

/-- The XInclude namespace URI (`xi_uri` in `_change_include_to_xinclude`). -/
def XI_URI : String := "http://www.w3.org/2001/XInclude"

/-- Qualified tag of a resolved inclusion (`xi:include`) element. -/
def xiIncludeTag : String := "\x7b" ++ XI_URI ++ "\x7dinclude"

/-- Qualified tag of a bare inclusion directive, `NAMESPACE + 'include'`. -/
def includeTag : String := NAMESPACE ++ "include"

/-- Qualified tag of an import directive, `NAMESPACE + 'import'`. -/
def importTag : String := NAMESPACE ++ "import"

/-- Qualified tag of a (nested) schema element, `NAMESPACE + 'schema'`. -/
def schemaTag : String := NAMESPACE ++ "schema"

/-- Qualified tag of an `xsd:element`. -/
def xsdElementTag : String := NAMESPACE ++ "element"

/-- Qualified tag of an `xsd:complexType`. -/
def complexTypeTag : String := NAMESPACE ++ "complexType"

/-- Qualified tag of an `xsd:sequence`. -/
def sequenceTag : String := NAMESPACE ++ "sequence"

/-- `elem.get(k)` / `elem.attrib[k]` read access: first binding of `k`. -/
def Element.getAttr (e : Element) (k : String) : Option String :=
  (e.attrs.find? (fun p => p.1 == k)).map Prod.snd

/-- `k in elem.attrib`. -/
def Element.hasAttr (e : Element) (k : String) : Bool :=
  e.attrs.any (fun p => p.1 == k)

/-- `elem.attrib[k] = v` assignment: overwrite an existing binding, else append. -/
def Element.setAttr (e : Element) (k v : String) : Element :=
  if e.hasAttr k then
    { e with attrs := e.attrs.map (fun p => if p.1 == k then (k, v) else p) }
  else
    { e with attrs := e.attrs ++ [(k, v)] }

/-- `parent.find(tag)`: first direct child with the given qualified tag. -/
def findChild (e : Element) (t : String) : Option Element :=
  e.children.find? (fun c => c.tag == t)

/-- `etree.strip_elements(root, tag)` restricted to a forest: every element
anywhere in the forest whose tag matches is removed together with its entire
subtree; all other elements keep their relative order. -/
def stripChildren (t : String) : List Element → List Element
  | [] => []
  | c :: cs =>
    if c.tag == t then stripChildren t cs
    else { c with children := stripChildren t c.children } :: stripChildren t cs
termination_by l => sizeOf l
decreasing_by
  all_goals simp_wf
  all_goals ((try (have h := Element.sizeOf_children_lt c)); omega)

/-- First match in document order over a forest: the search order of
`tree.find('//...')`. -/
def findInForest (p : Element → Bool) : List Element → Option Element
  | [] => none
  | c :: cs =>
    if p c then some c
    else (findInForest p c.children).or (findInForest p cs)
termination_by l => sizeOf l
decreasing_by
  all_goals simp_wf
  all_goals ((try (have h := Element.sizeOf_children_lt c)); omega)

/-- Presence of a tag anywhere in a forest, as a checker: `noTagB t l = true`
iff no element reachable in the forest `l` carries tag `t`.  This is the shape
of the post-flattening assertions made by the library tests via
`tree.find(...) is None`. -/
def noTagB (t : String) : List Element → Bool
  | [] => true
  | c :: cs => (!(c.tag == t)) && noTagB t c.children && noTagB t cs
termination_by l => sizeOf l
decreasing_by
  all_goals simp_wf
  all_goals ((try (have h := Element.sizeOf_children_lt c)); omega)

/-! ### Inclusion rewriting (`_change_include_to_xinclude`) -/

/-- Python-level failures that can abort schema construction.  `keyErr` models
the `KeyError` from `include_el.attrib[schemaLocation]`, `attrErr` the
`AttributeError` from using a `find` result that is `None`, `xincludeErr` a
failure of `tree.xinclude()`, `schemaErr` the
`iati.core.exceptions.SchemaError` raised on a load failure, and `syntaxErr`
the `SyntaxError` raised by ElementPath when a search path fails to
compile. -/
inductive PyErr where
  | keyErr
  | attrErr
  | xincludeErr
  | schemaErr
  | syntaxErr
deriving DecidableEq

/-- Modelled from the spec: the path-resolution mechanism
`iati.core.resources.resource_filename(iati.core.resources.get_schema_path(name))`
(the `resources` module is not among the given sources).  The spec describes it
as resolving a schema name to an absolute path of the named schema file; the
exact string format is irrelevant to every property below. -/
def resourcePath (name : String) : String :=
  "resources/schemas/" ++ name ++ ".xsd"

/-- Modelled from the spec: `iati.core.utilities.add_namespace` (the
`utilities` module is not among the given sources).  The spec: register an
auxiliary namespace declaration on the root, merging it non-destructively into
the existing declarations. -/
def addNamespace (root : Element) (k v : String) : Element :=
  { root with nsmap := root.nsmap ++ [(k, v)] }

/-- The new resolved-inclusion element built by `_change_include_to_xinclude`:
`etree.Element(xi-include, href=resolved, parse=xml, nsmap=NSMAP+xi)`, where
the href strips the final 4 characters (the file extension) from the bare
directive location before resolving. -/
def mkXincludeEl (loc : String) : Element :=
  { tag := xiIncludeTag,
    attrs := [("href", resourcePath (loc.dropRight 4)), ("parse", "xml")],
    nsmap := NSMAP ++ [("xi", XI_URI)],
    children := [] }

/-- The combined effect of
`import_el = root.find(import); import_el.attrib[schemaLocation] = path(xml);
root.insert(root.index(import_el) + 1, x)`: rewrite the first direct child
with the import tag and place `x` immediately after it; `none` when no import
directive exists (in which case the attribute assignment on `None` raises
`AttributeError`). -/
def insertAfterImport : List Element → Element → Option (List Element)
  | [], _ => none
  | c :: cs, x =>
    if c.tag == importTag then
      some (c.setAttr "schemaLocation" (resourcePath "xml") :: x :: cs)
    else
      (insertAfterImport cs x).map (fun rest => c :: rest)

/-- `Schema._change_include_to_xinclude`.  Returns `.ok none` when the root
has no direct `xsd:include` child (the Python method returns `None` having
touched nothing); otherwise reads the directive location, adds the XInclude
namespace, builds the resolved-inclusion element, rewrites the import
directive and inserts the new element after it, and globally strips every
`xsd:include` element from the tree. -/
def changeIncludeToXinclude (root : Element) : Except PyErr (Option Element) :=
  match findChild root includeTag with
  | none => .ok none
  | some includeEl =>
    match includeEl.getAttr "schemaLocation" with
    | none => .error .keyErr
    | some loc =>
      let root1 := addNamespace root "xi" XI_URI
      let xiEl := mkXincludeEl loc
      match insertAfterImport root1.children xiEl with
      | none => .error .attrErr
      | some cs => .ok (some { root1 with children := stripChildren includeTag cs })

/-! ### Inclusion resolution (`tree.xinclude()`)

`lxml` substitutes, for every `xi:include` element anywhere in the tree, the
root element of the document named by its `href`, recursively processing
inclusions inside substituted content, and raises on an unresolvable href or
an inclusion loop.  This is modelled as repeated single-pass substitution with
a fuel bound standing in for loop detection; `resolve` abstracts the file
system, giving the root element of the document at each href. -/

/-- One substitution pass: replace every `xi:include` element in the forest by
the root element of the document its `href` names, leaving the substituted
content itself unprocessed; `none` on a missing `href` or unresolvable href. -/
def substOnce (resolve : String → Option Element) : List Element → Option (List Element)
  | [] => some []
  | c :: cs =>
    if c.tag == xiIncludeTag then
      match c.getAttr "href" with
      | none => none
      | some href =>
        match resolve href with
        | none => none
        | some repl => (substOnce resolve cs).map (fun rest => repl :: rest)
    else
      match substOnce resolve c.children with
      | none => none
      | some kids => (substOnce resolve cs).map (fun rest => { c with children := kids } :: rest)
termination_by l => sizeOf l
decreasing_by
  all_goals simp_wf
  all_goals ((try (have h := Element.sizeOf_children_lt c)); omega)

/-- Substitution to fixpoint with fuel: stops as soon as no `xi:include`
element remains; fuel exhaustion models the loop detection failure. -/
def xincludeLoop (resolve : String → Option Element) : Nat → List Element → Option (List Element)
  | 0, l => if noTagB xiIncludeTag l then some l else none
  | fuel + 1, l =>
    if noTagB xiIncludeTag l then some l
    else (substOnce resolve l).bind (xincludeLoop resolve fuel)

/-- `tree.xinclude()`: resolve every inclusion below the root. -/
def xinclude (resolve : String → Option Element) (fuel : Nat) (root : Element) :
    Option Element :=
  (xincludeLoop resolve fuel root.children).map (fun cs => { root with children := cs })

/-! ### Flattening (`_flatten_includes`) -/

/-- The inner hoisting loop of `_flatten_includes` for one wrapper marker:
`for elem in nested_schema_el[:]` moves each child not carrying a
`schemaLocation` attribute to `root.insert(root.index(marker) + 1, elem)`.
Since the marker keeps its index, each insertion lands directly after the
marker, i.e. at the head of the zone of previously hoisted children; the
insertion zone is therefore built by a left fold that conses each kept child. -/
def hoistZone (cs : List Element) : List Element :=
  cs.foldl (fun zone c => if c.hasAttr "schemaLocation" then zone else c :: zone) []

/-- The marker scan of `_flatten_includes`:
`for nested_schema_el in root.findall(schema)` iterates over the direct
children of the root that carry the schema tag (a snapshot taken before any
mutation — children hoisted out of a marker are never re-scanned, which this
left-to-right pass reproduces by emitting each marker's insertion zone and
moving on).  A processed marker retains exactly its `schemaLocation`-carrying
children, the others having been moved out. -/
def hoistLoop : List Element → List Element
  | [] => []
  | c :: cs =>
    if c.tag == schemaTag then
      { c with children := c.children.filter (fun e => e.hasAttr "schemaLocation") }
        :: (hoistZone c.children ++ hoistLoop cs)
    else
      c :: hoistLoop cs

/-- The tail of `_flatten_includes` after `tree.xinclude()`: hoist the
children of every nested-schema direct child of the root, then
`etree.strip_elements(root, schema)` removes every schema-tagged element
anywhere below the root together with its subtree. -/
def flattenNestedSchemas (root : Element) : Element :=
  { root with children := stripChildren schemaTag (hoistLoop root.children) }

/-- `Schema._flatten_includes`: rewrite the inclusion; when the rewrite
reports no match the tree is left untouched; otherwise resolve the inclusion
and remove the nested schema wrappers. -/
def flattenIncludes (resolve : String → Option Element) (fuel : Nat) (root : Element) :
    Except PyErr Element :=
  match changeIncludeToXinclude root with
  | .error e => .error e
  | .ok none => .ok root
  | .ok (some t) =>
    match xinclude resolve fuel t with
    | none => .error .xincludeErr
    | some t2 => .ok (flattenNestedSchemas t2)

/-! ### Schema construction (`Schema.__init__`) -/

/-- The message logged when the tree loader fails; the source wraps the path
in single quotation marks, which are immaterial here. -/
def logMsg (path : String) : String :=
  "Failed to load tree at " ++ path ++ " when creating Schema."

/-- `Schema.__init__`: load the tree at `path` (the loader
`iati.core.resources.load_as_tree` is abstracted by `load`, returning `none`
for an `IOError`/`OSError`); on failure log the message naming the path and
raise `SchemaError`; on success run the full flatten pipeline.  Any exception
raised while flattening propagates, so no partially constructed value is ever
returned: the result is the fully flattened tree or an error. -/
def schemaInit (load : String → Option Element) (resolve : String → Option Element)
    (fuel : Nat) (path : String) : Except (PyErr × List String) Element :=
  match load path with
  | none => .error (.schemaErr, [logMsg path])
  | some t =>
    match flattenIncludes resolve fuel t with
    | .error e => .error (e, [])
    | .ok t2 => .ok t2

/-! ### Element navigation -/

/-- The search semantics of the compiled path `//xsd:element[@name="N"]`:
the first element in document order among the STRICT descendants of the root
(ElementPath `//` skips the context element itself) whose tag is
`xsd:element` and whose `name` attribute equals the requested name; `none`
when absent. -/
def findXsdElement (tree : Element) (name : String) : Option Element :=
  findInForest (fun e => e.tag == xsdElementTag && e.getAttr "name" == some name)
    tree.children

/-- `parent_element.findall(xsd:complexType/xsd:sequence/xsd:element)`: the
child definitions making up the structural shape of an element, in document
order. -/
def childShape (parent : Element) : List Element :=
  (parent.children.filter (fun c => c.tag == complexTypeTag)).flatMap fun ct =>
    (ct.children.filter (fun s => s.tag == sequenceTag)).flatMap fun sq =>
      sq.children.filter (fun e => e.tag == xsdElementTag)

/-- The loop body of `get_child_xsd_elements`: a definition with a `ref`
attribute contributes the (possibly absent) result of looking up the
reference target via `get_xsd_element`; one with a `name` attribute
contributes itself; one with neither contributes nothing.  The lookup is
modelled by its underlying document-order search `findXsdElement`; a
reference target containing a double quote would make `get_xsd_element` —
and with it the whole `get_child_xsd_elements` call — raise the path
`SyntaxError` (see `getXsdElement`), so the child-list properties below
describe the runs in which the method returns. -/
def resolveChildRef (tree : Element) (el : Element) : Option (Option Element) :=
  match el.getAttr "ref" with
  | some r => some (findXsdElement tree r)
  | none =>
    match el.getAttr "name" with
    | some _ => some (some el)
    | none => none

/-- `Schema.get_child_xsd_elements`. -/
def getChildXsdElements (tree parent : Element) : List (Option Element) :=
  (childShape parent).filterMap (resolveChildRef tree)

/-! ### General lemmas about forests -/

/-- Induction over forests: to prove a property of every child list it
suffices to handle `[]` and the step from a head's children and the tail. -/
theorem forest_ind {P : List Element → Prop} (h0 : P [])
    (h1 : ∀ c cs, P c.children → P cs → P (c :: cs)) : ∀ l, P l := by
  have key : ∀ n l, sizeOf l ≤ n → P l := by
    intro n
    induction n with
    | zero =>
      intro l hl
      cases l with
      | nil => exact h0
      | cons c cs => simp only [List.cons.sizeOf_spec] at hl; omega
    | succ n ih =>
      intro l hl
      cases l with
      | nil => exact h0
      | cons c cs =>
        simp only [List.cons.sizeOf_spec] at hl
        have hc := Element.sizeOf_children_lt c
        exact h1 c cs (ih _ (by omega)) (ih _ (by omega))
  intro l
  exact key (sizeOf l) l le_rfl

theorem stripChildren_append (t : String) (a b : List Element) :
    stripChildren t (a ++ b) = stripChildren t a ++ stripChildren t b := by
  induction a with
  | nil => simp [stripChildren]
  | cons c a ih =>
    by_cases h : c.tag == t
    · simp [stripChildren, h, ih]
    · simp [stripChildren, h, ih]

theorem noTagB_append (t : String) (a b : List Element) :
    noTagB t (a ++ b) = (noTagB t a && noTagB t b) := by
  induction a with
  | nil => simp [noTagB]
  | cons c a ih => simp [noTagB, ih, Bool.and_assoc]

theorem noTagB_reverse (t : String) (l : List Element) :
    noTagB t l.reverse = noTagB t l := by
  induction l with
  | nil => simp
  | cons c l ih =>
    simp [noTagB, List.reverse_cons, noTagB_append, ih]
    cases noTagB t l <;> cases (c.tag == t) <;> cases noTagB t c.children <;> simp

theorem noTagB_filter (t : String) (p : Element → Bool) (l : List Element)
    (h : noTagB t l = true) : noTagB t (l.filter p) = true := by
  induction l with
  | nil => simp [noTagB]
  | cons c l ih =>
    simp only [noTagB, Bool.and_eq_true] at h
    by_cases hp : p c
    · simp [List.filter_cons, hp, noTagB, h.1.1, h.1.2, ih h.2]
    · simp [List.filter_cons, hp, ih h.2]

theorem noTagB_strip_self (t : String) : ∀ l, noTagB t (stripChildren t l) = true := by
  apply forest_ind
  · simp [stripChildren, noTagB]
  · intro c cs ihc ihcs
    by_cases h : c.tag == t
    · simp [stripChildren, h, ihcs]
    · simp [stripChildren, h, noTagB, ihc, ihcs]

theorem noTagB_strip_other (t s : String) :
    ∀ l, noTagB t l = true → noTagB t (stripChildren s l) = true := by
  apply forest_ind
  · simp [stripChildren]
  · intro c cs ihc ihcs h
    simp only [noTagB, Bool.and_eq_true] at h
    by_cases hs : c.tag == s
    · simp [stripChildren, hs, ihcs h.2]
    · simp [stripChildren, hs, noTagB, h.1.1, ihc h.1.2, ihcs h.2]

/-! ### The hoisting loop reverses -/

/-- The insertion zone built by repeatedly inserting directly after the
marker holds exactly the children without a `schemaLocation` attribute, in
reverse of their original order. -/
theorem hoistZone_eq (cs : List Element) :
    hoistZone cs = (cs.filter (fun c => !(c.hasAttr "schemaLocation"))).reverse := by
  have go : ∀ (l acc : List Element),
      l.foldl (fun zone c => if c.hasAttr "schemaLocation" then zone else c :: zone) acc
        = (l.filter (fun c => !(c.hasAttr "schemaLocation"))).reverse ++ acc := by
    intro l
    induction l with
    | nil => intro acc; simp
    | cons c l ih =>
      intro acc
      by_cases h : c.hasAttr "schemaLocation"
      · simp [List.foldl_cons, h, ih, List.filter_cons]
      · rw [List.foldl_cons, if_neg (by simp [h]), ih, List.filter_cons]
        simp [h, List.reverse_cons]
  simpa using go cs []

theorem hoistLoop_append (a b : List Element) :
    hoistLoop (a ++ b) = hoistLoop a ++ hoistLoop b := by
  induction a with
  | nil => simp [hoistLoop]
  | cons c a ih =>
    by_cases h : c.tag == schemaTag
    · simp [hoistLoop, h, ih]
    · simp [hoistLoop, h, ih]

theorem noTagB_hoistLoop (t : String) (l : List Element)
    (h : noTagB t l = true) : noTagB t (hoistLoop l) = true := by
  induction l with
  | nil => simpa [hoistLoop] using h
  | cons c l ih =>
    simp only [noTagB, Bool.and_eq_true] at h
    by_cases hs : c.tag == schemaTag
    · simp only [hoistLoop, hs, if_pos, noTagB, noTagB_append, Bool.and_eq_true]
      refine ⟨⟨h.1.1, noTagB_filter _ _ _ h.1.2⟩, ?_, ih h.2⟩
      rw [hoistZone_eq, noTagB_reverse]
      exact noTagB_filter _ _ _ h.1.2
    · simp [hoistLoop, hs, noTagB, h.1.1, h.1.2, ih h.2]

/-! ### Document-order search -/

theorem findInForest_nil (p : Element → Bool) : findInForest p [] = none := by
  rw [findInForest]

theorem findInForest_cons (p : Element → Bool) (c : Element) (cs : List Element) :
    findInForest p (c :: cs)
      = if p c then some c
        else (findInForest p c.children).or (findInForest p cs) := by
  rw [findInForest]

/-! ### Substitution lemmas -/

/-- A successful substitution pass preserves absence of a tag, provided every
element the resolver can return is free of that tag. -/
theorem substOnce_noTag (t : String) (resolve : String → Option Element)
    (hres : ∀ href e, resolve href = some e →
      ((!(e.tag == t)) && noTagB t e.children) = true) :
    ∀ l, noTagB t l = true → ∀ l2, substOnce resolve l = some l2 → noTagB t l2 = true := by
  apply forest_ind
  · intro _ l2 h2
    rw [substOnce] at h2
    cases h2
    simp [noTagB]
  · intro c cs ihc ihcs h l2 h2
    simp only [noTagB, Bool.and_eq_true] at h
    by_cases hxi : (c.tag == xiIncludeTag) = true
    · rw [substOnce, if_pos hxi] at h2
      split at h2
      · simp at h2
      · rename_i href hh
        split at h2
        · simp at h2
        · rename_i repl hr
          cases hrest : substOnce resolve cs with
          | none => simp [hrest] at h2
          | some rest =>
            rw [hrest] at h2
            simp only [Option.map_some', Option.some.injEq] at h2
            subst h2
            have hre := hres href repl hr
            simp only [Bool.and_eq_true] at hre
            simp [noTagB, hre.1, hre.2, ihcs h.2 rest hrest]
    · rw [substOnce, if_neg hxi] at h2
      split at h2
      · simp at h2
      · rename_i kids hk
        cases hrest : substOnce resolve cs with
        | none => simp [hrest] at h2
        | some rest =>
          rw [hrest] at h2
          simp only [Option.map_some', Option.some.injEq] at h2
          subst h2
          simp [noTagB, h.1.1, ihc h.1.2 kids hk, ihcs h.2 rest hrest]

/-- The substitution loop preserves absence of a tag under the same resolver
condition. -/
theorem xincludeLoop_noTag (t : String) (resolve : String → Option Element)
    (hres : ∀ href e, resolve href = some e →
      ((!(e.tag == t)) && noTagB t e.children) = true) :
    ∀ fuel l l2, noTagB t l = true → xincludeLoop resolve fuel l = some l2 →
      noTagB t l2 = true := by
  intro fuel
  induction fuel with
  | zero =>
    intro l l2 h hx
    rw [xincludeLoop] at hx
    by_cases hg : noTagB xiIncludeTag l
    · rw [if_pos hg] at hx; cases hx; exact h
    · rw [if_neg hg] at hx; cases hx
  | succ fuel ih =>
    intro l l2 h hx
    rw [xincludeLoop] at hx
    by_cases hg : noTagB xiIncludeTag l
    · rw [if_pos hg] at hx; cases hx; exact h
    · rw [if_neg hg] at hx
      match hs : substOnce resolve l with
      | none => rw [hs] at hx; cases hx
      | some mid =>
        rw [hs] at hx
        simp only [Option.some_bind] at hx
        exact ih mid l2 (substOnce_noTag t resolve hres l h mid hs) hx

/-- A successful substitution loop leaves no resolved-inclusion element. -/
theorem xincludeLoop_noXi (resolve : String → Option Element) :
    ∀ fuel l l2, xincludeLoop resolve fuel l = some l2 →
      noTagB xiIncludeTag l2 = true := by
  intro fuel
  induction fuel with
  | zero =>
    intro l l2 hx
    rw [xincludeLoop] at hx
    by_cases hg : noTagB xiIncludeTag l
    · rw [if_pos hg] at hx; cases hx; exact hg
    · rw [if_neg hg] at hx; cases hx
  | succ fuel ih =>
    intro l l2 hx
    rw [xincludeLoop] at hx
    by_cases hg : noTagB xiIncludeTag l
    · rw [if_pos hg] at hx; cases hx; exact hg
    · rw [if_neg hg] at hx
      match hs : substOnce resolve l with
      | none => rw [hs] at hx; cases hx
      | some mid =>
        rw [hs] at hx
        simp only [Option.some_bind] at hx
        exact ih mid l2 hx

/-! ### Rewriting lemmas -/

theorem Element.setAttr_tag (e : Element) (k v : String) :
    (e.setAttr k v).tag = e.tag := by
  rw [Element.setAttr]
  split <;> rfl

theorem Element.setAttr_children (e : Element) (k v : String) :
    (e.setAttr k v).children = e.children := by
  rw [Element.setAttr]
  split <;> rfl

/-- `insertAfterImport` on a child list whose first import directive is `imp`
rewrites exactly that directive and places the new element right after it. -/
theorem insertAfterImport_spec (pre post : List Element) (imp x : Element)
    (himp : imp.tag = importTag) (hpre : ∀ c ∈ pre, c.tag ≠ importTag) :
    insertAfterImport (pre ++ imp :: post) x
      = some (pre ++ imp.setAttr "schemaLocation" (resourcePath "xml") :: x :: post) := by
  induction pre with
  | nil => simp [insertAfterImport, himp]
  | cons c pre ih =>
    have hc : ¬(c.tag == importTag) = true := by
      simpa using hpre c (List.mem_cons_self c pre)
    rw [List.cons_append, insertAfterImport, if_neg hc,
      ih (fun d hd => hpre d (List.mem_cons_of_mem c hd))]
    rfl

/-- The rewrite reports no match exactly when the root has no direct
`xsd:include` child. -/
theorem changeIncludeToXinclude_none (root : Element) :
    changeIncludeToXinclude root = .ok none ↔ findChild root includeTag = none := by
  constructor
  · intro h
    cases hf : findChild root includeTag with
    | none => rfl
    | some incl =>
      exfalso
      simp only [changeIncludeToXinclude, hf] at h
      cases hl : incl.getAttr "schemaLocation" with
      | none => simp [hl] at h
      | some loc =>
        simp only [hl] at h
        cases hi : insertAfterImport (addNamespace root "xi" XI_URI).children (mkXincludeEl loc) with
        | none => simp [hi] at h
        | some cs => simp [hi] at h
  · intro h
    rw [changeIncludeToXinclude, h]

theorem stripChildren_nil (t : String) : stripChildren t [] = [] := by
  rw [stripChildren]

theorem stripChildren_cons_ne (t : String) (c : Element) (cs : List Element)
    (h : c.tag ≠ t) :
    stripChildren t (c :: cs)
      = { c with children := stripChildren t c.children } :: stripChildren t cs := by
  rw [stripChildren, if_neg (by simp [h])]

theorem stripChildren_cons_eq (t : String) (c : Element) (cs : List Element)
    (h : c.tag = t) :
    stripChildren t (c :: cs) = stripChildren t cs := by
  rw [stripChildren, if_pos (by simp [h])]

theorem hoistLoop_cons_marker (c : Element) (cs : List Element) (h : c.tag = schemaTag) :
    hoistLoop (c :: cs)
      = { c with children := c.children.filter (fun e => e.hasAttr "schemaLocation") }
          :: (hoistZone c.children ++ hoistLoop cs) := by
  rw [hoistLoop, if_pos (by simp [h])]

theorem hoistLoop_cons_other (c : Element) (cs : List Element) (h : c.tag ≠ schemaTag) :
    hoistLoop (c :: cs) = c :: hoistLoop cs := by
  rw [hoistLoop, if_neg (by simp [h])]

theorem xincludeLoop_succ (resolve : String → Option Element) (fuel : Nat) (l : List Element) :
    xincludeLoop resolve (fuel + 1) l
      = if noTagB xiIncludeTag l then some l
        else (substOnce resolve l).bind (xincludeLoop resolve fuel) := rfl

/-- A successful rewrite yields a tree whose child list has been produced by
the global strip of bare inclusion directives. -/
theorem changeIncludeToXinclude_ok_some (root t1 : Element)
    (h : changeIncludeToXinclude root = .ok (some t1)) :
    ∃ cs, t1.children = stripChildren includeTag cs := by
  simp only [changeIncludeToXinclude] at h
  split at h
  · simp at h
  · split at h
    · simp at h
    · split at h
      · simp at h
      · rename_i cs hins
        simp only [Except.ok.injEq, Option.some.injEq] at h
        exact ⟨cs, by rw [← h]⟩

/-- Unfolding a successful `xinclude`: the substitution loop succeeded on the
root's child list. -/
theorem xinclude_some (resolve : String → Option Element) (fuel : Nat) (t1 t2 : Element)
    (h : xinclude resolve fuel t1 = some t2) :
    xincludeLoop resolve fuel t1.children = some t2.children := by
  rw [xinclude] at h
  cases hl : xincludeLoop resolve fuel t1.children with
  | none => rw [hl] at h; cases h
  | some cs =>
    rw [hl] at h
    simp only [Option.map_some', Option.some.injEq] at h
    rw [← h]

/-- Composing a successful rewrite and a successful substitution: the
pipeline returns the flattened substituted tree. -/
theorem flattenIncludes_of (resolve : String → Option Element) (fuel : Nat)
    (root t1 t2 : Element)
    (hcx : changeIncludeToXinclude root = .ok (some t1))
    (hx : xinclude resolve fuel t1 = some t2) :
    flattenIncludes resolve fuel root = .ok (flattenNestedSchemas t2) := by
  simp only [flattenIncludes, hcx, hx]

/-! ### Occurrence removal

To quantify over an occurrence of an element at an arbitrary position of a
forest — by place, not by value — removal relations are used: `DeepRemove m
l lr` holds when `lr` is `l` with one occurrence of `m`, at any depth,
deleted together with its entire subtree; `NestedRemove` restricts the
occurrence to lie strictly below the top level of the forest.  With the
forest being the root's child list, a `NestedRemove` occurrence is exactly
one that is not a direct child of the root. -/

inductive DeepRemove (m : Element) : List Element → List Element → Prop where
  | here (pre post : List Element) : DeepRemove m (pre ++ m :: post) (pre ++ post)
  | inside (c : Element) (cs' rest : List Element) :
      DeepRemove m c.children cs' →
      DeepRemove m (c :: rest) ({ c with children := cs' } :: rest)
  | there (c : Element) (rest rest' : List Element) :
      DeepRemove m rest rest' → DeepRemove m (c :: rest) (c :: rest')

inductive NestedRemove (m : Element) : List Element → List Element → Prop where
  | inside (c : Element) (cs' rest : List Element) :
      DeepRemove m c.children cs' →
      NestedRemove m (c :: rest) ({ c with children := cs' } :: rest)
  | there (c : Element) (rest rest' : List Element) :
      NestedRemove m rest rest' → NestedRemove m (c :: rest) (c :: rest')

/-- Stripping a tag does not see an occurrence of an element carrying that
tag: the occurrence is deleted with its whole subtree either way. -/
theorem stripChildren_deepRemove (t : String) (m : Element) (hm : m.tag = t) :
    ∀ {l lr : List Element}, DeepRemove m l lr →
      stripChildren t l = stripChildren t lr := by
  intro l lr h
  induction h with
  | here pre post =>
    rw [stripChildren_append, stripChildren_cons_eq t m post hm, stripChildren_append]
  | inside c cs' rest hrec ih =>
    by_cases hc : c.tag = t
    · rw [stripChildren_cons_eq t c rest hc,
        stripChildren_cons_eq t { c with children := cs' } rest hc]
    · rw [stripChildren_cons_ne t c rest hc,
        stripChildren_cons_ne t { c with children := cs' } rest hc, ih]
  | there c rest rest' hrec ih =>
    by_cases hc : c.tag = t
    · rw [stripChildren_cons_eq t c rest hc, stripChildren_cons_eq t c rest' hc, ih]
    · rw [stripChildren_cons_ne t c rest hc, stripChildren_cons_ne t c rest' hc, ih]

theorem DeepRemove.append_right {m : Element} (b : List Element)
    {a ar : List Element} (h : DeepRemove m a ar) : DeepRemove m (b ++ a) (b ++ ar) := by
  induction b with
  | nil => simpa using h
  | cons c b ih => exact DeepRemove.there c _ _ ih

theorem DeepRemove.append_left {m : Element} (b : List Element) :
    ∀ {a ar : List Element}, DeepRemove m a ar → DeepRemove m (a ++ b) (ar ++ b) := by
  intro a ar h
  induction h with
  | here pre post =>
    have hh := DeepRemove.here (m := m) pre (post ++ b)
    simpa [List.append_assoc] using hh
  | inside c cs' rest hrec _ih => exact DeepRemove.inside c cs' (rest ++ b) hrec
  | there c rest rest' hrec ih => exact DeepRemove.there c _ _ ih

theorem DeepRemove.rev {m : Element} :
    ∀ {a ar : List Element}, DeepRemove m a ar → DeepRemove m a.reverse ar.reverse := by
  intro a ar h
  induction h with
  | here pre post =>
    have hh := DeepRemove.here (m := m) post.reverse pre.reverse
    simpa [List.reverse_append] using hh
  | inside c cs' rest hrec _ih =>
    have hh := DeepRemove.append_right (m := m) rest.reverse
      (DeepRemove.inside c cs' [] hrec)
    simpa [List.reverse_cons] using hh
  | there c rest rest' hrec ih =>
    have hh := DeepRemove.append_left (m := m) [c] ih
    simpa [List.reverse_cons] using hh

/-- Filtering the top level of a forest by a predicate that only reads
attributes either keeps the removal site (yielding a removal of the filtered
forests) or drops it (yielding equal filtered forests). -/
theorem DeepRemove.filter {m : Element} (p : Element → Bool)
    (hp : ∀ (c : Element) (cs' : List Element), p { c with children := cs' } = p c) :
    ∀ {l lr : List Element}, DeepRemove m l lr →
      DeepRemove m (l.filter p) (lr.filter p) ∨ l.filter p = lr.filter p := by
  intro l lr h
  induction h with
  | here pre post =>
    by_cases hm : p m
    · left
      have hh := DeepRemove.here (m := m) (pre.filter p) (post.filter p)
      simpa [List.filter_append, List.filter_cons, hm] using hh
    · right
      simp [List.filter_append, List.filter_cons, hm]
  | inside c cs' rest hrec _ih =>
    by_cases hc : p c
    · left
      have hc' : p { c with children := cs' } = true := by rw [hp]; exact hc
      have hh := DeepRemove.inside c cs' (rest.filter p) hrec
      simpa [List.filter_cons, hc, hc'] using hh
    · right
      have hc' : p { c with children := cs' } = false := by rw [hp]; simpa using hc
      simp [List.filter_cons, hc, hc']
  | there c rest rest' hrec ih =>
    by_cases hc : p c
    · rcases ih with ih | ih
      · left
        have hh := DeepRemove.there (m := m) c _ _ ih
        simpa [List.filter_cons, hc] using hh
      · right
        simp [List.filter_cons, hc, ih]
    · rcases ih with ih | ih
      · left
        simpa [List.filter_cons, hc] using ih
      · right
        simp [List.filter_cons, hc, ih]

theorem strip_hoist_marker_cons (c : Element) (rest : List Element)
    (hc : c.tag = schemaTag) :
    stripChildren schemaTag (hoistLoop (c :: rest))
      = stripChildren schemaTag (hoistZone c.children)
        ++ stripChildren schemaTag (hoistLoop rest) := by
  rw [hoistLoop_cons_marker c rest hc,
    stripChildren_cons_eq schemaTag
      { c with children := c.children.filter (fun e => e.hasAttr "schemaLocation") } _ hc,
    stripChildren_append]

theorem strip_hoist_other_cons (c : Element) (rest : List Element)
    (hc : ¬c.tag = schemaTag) :
    stripChildren schemaTag (hoistLoop (c :: rest))
      = { c with children := stripChildren schemaTag c.children }
        :: stripChildren schemaTag (hoistLoop rest) := by
  rw [hoistLoop_cons_other c rest hc, stripChildren_cons_ne schemaTag c _ hc]

/-- The hoist-then-strip tail of flattening does not see a wrapper-marker
occurrence below the top level of the root's child list. -/
theorem hoistStrip_nestedRemove (m : Element) (hm : m.tag = schemaTag) :
    ∀ {l lr : List Element}, NestedRemove m l lr →
      stripChildren schemaTag (hoistLoop l) = stripChildren schemaTag (hoistLoop lr) := by
  intro l lr h
  induction h with
  | inside c cs' rest hrec =>
    by_cases hc : c.tag = schemaTag
    · rw [strip_hoist_marker_cons c rest hc,
        strip_hoist_marker_cons { c with children := cs' } rest hc]
      congr 1
      rw [hoistZone_eq, hoistZone_eq]
      rcases DeepRemove.filter (fun e => !(e.hasAttr "schemaLocation"))
        (fun _ _ => rfl) hrec with hf | hf
      · exact stripChildren_deepRemove schemaTag m hm (DeepRemove.rev hf)
      · rw [hf]
    · rw [strip_hoist_other_cons c rest hc,
        strip_hoist_other_cons { c with children := cs' } rest hc,
        stripChildren_deepRemove schemaTag m hm hrec]
  | there c rest rest' hrec ih =>
    by_cases hc : c.tag = schemaTag
    · rw [strip_hoist_marker_cons c rest hc, strip_hoist_marker_cons c rest' hc, ih]
    · rw [strip_hoist_other_cons c rest hc, strip_hoist_other_cons c rest' hc, ih]

/-! ### Claim theorems -/

/-- C1, amended.  For every wrapper marker `m` that is a direct child of the
root after inclusion substitution, flattening inserts each of the marker's
children lacking a `schemaLocation` attribute into the root immediately after
the marker; since every insertion lands at that same fixed position, after
flattening the hoisted children appear in REVERSE of their original relative
order at the marker's former position (children carrying a `schemaLocation`
attribute are skipped, and the final global strip also removes any hoisted
child that is itself a wrapper marker, together with its subtree). -/
theorem spec_c1 (root m : Element) (pre post : List Element)
    (hsplit : root.children = pre ++ m :: post)
    (hm : m.tag = schemaTag) :
    (flattenNestedSchemas root).children
      = stripChildren schemaTag (hoistLoop pre)
        ++ stripChildren schemaTag
            ((m.children.filter (fun c => !(c.hasAttr "schemaLocation"))).reverse)
        ++ stripChildren schemaTag (hoistLoop post) := by
  simp only [flattenNestedSchemas]
  rw [hsplit, hoistLoop_append, hoistLoop_cons_marker m post hm,
    stripChildren_append,
    stripChildren_cons_eq schemaTag _ _ (by simpa using hm),
    stripChildren_append, hoistZone_eq, List.append_assoc]

/-- C9.  A wrapper marker that occurs anywhere in the tree other than as a
direct child of the root — at any depth, including below another wrapper
marker — contributes nothing to flattening: its children are never hoisted
and the final global strip removes the marker together with its entire
subtree, so the flattened tree is identical to the flattened form of the
tree in which that marker and all of its descendants were deleted
beforehand. -/
theorem spec_c9 (root m : Element) (lr : List Element)
    (hm : m.tag = schemaTag)
    (hrem : NestedRemove m root.children lr) :
    flattenNestedSchemas root = flattenNestedSchemas { root with children := lr } := by
  simp only [flattenNestedSchemas]
  rw [hoistStrip_nestedRemove m hm hrem]

/-- C2, amended.  The claim fails for trees with no bare inclusion directive
at the root (the pipeline is then a no-op and pre-existing wrapper markers
survive; see the counterexample).  When the rewrite does fire — a bare
inclusion directive exists as a direct child of the root — and the documents
substituted by the resolver are themselves free of bare inclusion directives,
a successfully constructed tree contains no wrapper marker, no bare inclusion
directive and no resolved inclusion directive reachable below the root. -/
theorem spec_c2 (resolve : String → Option Element) (fuel : Nat) (root t : Element)
    (hfired : findChild root includeTag ≠ none)
    (hres : ∀ href e, resolve href = some e →
      ((!(e.tag == includeTag)) && noTagB includeTag e.children) = true)
    (hok : flattenIncludes resolve fuel root = .ok t) :
    noTagB schemaTag t.children = true
      ∧ noTagB includeTag t.children = true
      ∧ noTagB xiIncludeTag t.children = true := by
  rw [flattenIncludes] at hok
  split at hok
  · cases hok
  · rename_i hcx
    exact absurd ((changeIncludeToXinclude_none root).1 hcx) hfired
  · rename_i t1 hcx
    split at hok
    · cases hok
    · rename_i t2 hx
      simp only [Except.ok.injEq] at hok
      subst hok
      obtain ⟨cs, hcs⟩ := changeIncludeToXinclude_ok_some root t1 hcx
      have h1 : noTagB includeTag t1.children = true := by
        rw [hcs]; exact noTagB_strip_self _ _
      have hll := xinclude_some resolve fuel t1 t2 hx
      have h2 : noTagB includeTag t2.children = true :=
        xincludeLoop_noTag includeTag resolve hres fuel _ _ h1 hll
      have h3 : noTagB xiIncludeTag t2.children = true :=
        xincludeLoop_noXi resolve fuel _ _ hll
      refine ⟨?_, ?_, ?_⟩
      · simp only [flattenNestedSchemas]
        exact noTagB_strip_self _ _
      · simp only [flattenNestedSchemas]
        exact noTagB_strip_other _ _ _ (noTagB_hoistLoop _ _ h2)
      · simp only [flattenNestedSchemas]
        exact noTagB_strip_other _ _ _ (noTagB_hoistLoop _ _ h3)

/-- C6, amended.  The claim fails in general: hoisting can deposit a bare
inclusion directive (one with no `schemaLocation` attribute) at the root of a
flattened tree, and the second run then raises instead of being the identity
(see the counterexample).  For every flattened tree with no bare inclusion
directive among the root's direct children, the rewrite step reports no match
on the second run and the pipeline performs no further mutation, returning
the tree unchanged. -/
theorem spec_c6 (resolve : String → Option Element) (fuel : Nat) (root t : Element)
    (_h1 : flattenIncludes resolve fuel root = .ok t)
    (h2 : ∀ c ∈ t.children, c.tag ≠ includeTag) :
    flattenIncludes resolve fuel t = .ok t := by
  have hfc : findChild t includeTag = none := by
    rw [findChild]
    exact List.find?_eq_none.2 (fun c hcm => by simp [h2 c hcm])
  rw [flattenIncludes, (changeIncludeToXinclude_none t).2 hfc]

/-- C7.  For every loaded tree with no bare inclusion directive among the
direct children of its root, construction is the identity on the tree: the
rewrite reports no match, the pipeline performs no mutation, and the
constructed Schema owns exactly the directly loaded tree. -/
theorem spec_c7 (load resolve : String → Option Element) (fuel : Nat)
    (path : String) (tree : Element)
    (hload : load path = some tree)
    (hnone : ∀ c ∈ tree.children, c.tag ≠ includeTag) :
    schemaInit load resolve fuel path = .ok tree := by
  have hfc : findChild tree includeTag = none := by
    rw [findChild]
    exact List.find?_eq_none.2 (fun c hcm => by simp [hnone c hcm])
  rw [schemaInit]
  simp only [hload]
  rw [flattenIncludes, (changeIncludeToXinclude_none tree).2 hfc]

/-- C8.  When the loader fails with an I/O error, construction logs a message
naming the failed path and raises the schema load error; and any successfully
constructed Schema is the result of a complete run of the flatten pipeline on
the loaded tree — no partially constructed value escapes. -/
theorem spec_c8 (load resolve : String → Option Element) (fuel : Nat) :
    (∀ path, load path = none →
      schemaInit load resolve fuel path = .error (.schemaErr, [logMsg path]))
    ∧ (∀ path t, schemaInit load resolve fuel path = .ok t →
      ∃ t0, load path = some t0 ∧ flattenIncludes resolve fuel t0 = .ok t) := by
  constructor
  · intro path hl
    rw [schemaInit]
    simp only [hl]
  · intro path t h
    rw [schemaInit] at h
    split at h
    · cases h
    · rename_i t0 hl
      split at h
      · cases h
      · rename_i t2 hf2
        simp only [Except.ok.injEq] at h
        subst h
        exact ⟨t0, hl, hf2⟩

/-- C3.  When a bare inclusion directive (carrying location `loc`) exists as
a direct child of the root and `imp` is the first import directive among the
root's children, the rewriter rewrites that import directive's
`schemaLocation` to the fixed resolved base-definitions path, inserts the
newly built resolved-inclusion element immediately after the import directive
leaving the relative order of all other children unchanged, and strips every
bare inclusion directive from the whole tree (pre, post and all subtrees),
not only the directive that was processed. -/
theorem spec_c3 (root incl imp : Element) (loc : String) (pre post : List Element)
    (hfind : findChild root includeTag = some incl)
    (hloc : incl.getAttr "schemaLocation" = some loc)
    (hsplit : root.children = pre ++ imp :: post)
    (himp : imp.tag = importTag)
    (hpre : ∀ c ∈ pre, c.tag ≠ importTag) :
    changeIncludeToXinclude root
      = .ok (some { root with
          nsmap := root.nsmap ++ [("xi", XI_URI)],
          children :=
            stripChildren includeTag pre
              ++ { imp.setAttr "schemaLocation" (resourcePath "xml") with
                    children := stripChildren includeTag imp.children }
                :: mkXincludeEl loc
                :: stripChildren includeTag post }) := by
  have hins : insertAfterImport (addNamespace root "xi" XI_URI).children (mkXincludeEl loc)
      = some (pre ++ imp.setAttr "schemaLocation" (resourcePath "xml")
          :: mkXincludeEl loc :: post) := by
    show insertAfterImport root.children (mkXincludeEl loc) = _
    rw [hsplit]
    exact insertAfterImport_spec pre post imp (mkXincludeEl loc) himp hpre
  simp only [changeIncludeToXinclude, hfind, hloc, hins]
  rw [stripChildren_append,
    stripChildren_cons_ne includeTag _ _ (by rw [Element.setAttr_tag, himp]; decide),
    stripChildren_cons_ne includeTag _ _ (by show xiIncludeTag ≠ includeTag; decide),
    Element.setAttr_children]
  simp only [mkXincludeEl, stripChildren_nil, addNamespace]

/-- C4.  The child list produced for a parent element substitutes, at the
position of every child definition carrying a `ref` attribute, the result of
looking up the reference target by name (not the reference stub), and keeps
every child definition carrying a `name` attribute as-is, preserving order. -/
theorem spec_c4 (tree parent : Element) (pre post : List Element) (el : Element)
    (hshape : childShape parent = pre ++ el :: post) :
    (∀ r, el.getAttr "ref" = some r →
      getChildXsdElements tree parent
        = pre.filterMap (resolveChildRef tree)
          ++ findXsdElement tree r :: post.filterMap (resolveChildRef tree))
    ∧ (el.getAttr "ref" = none → ∀ n, el.getAttr "name" = some n →
      getChildXsdElements tree parent
        = pre.filterMap (resolveChildRef tree)
          ++ some el :: post.filterMap (resolveChildRef tree)) := by
  constructor
  · intro r hr
    rw [getChildXsdElements, hshape, List.filterMap_append]
    simp only [List.filterMap_cons, resolveChildRef, hr]
  · intro hr n hn
    rw [getChildXsdElements, hshape, List.filterMap_append]
    simp only [List.filterMap_cons, resolveChildRef, hr, hn]

/-- C10.  A child definition whose `ref` attribute names a target that no
element of the tree carries contributes the explicit absence value `none` at
its position in the child list; a child definition carrying neither `ref` nor
`name` is silently omitted. -/
theorem spec_c10 (tree parent : Element) (pre post : List Element) (el : Element)
    (hshape : childShape parent = pre ++ el :: post) :
    (∀ r, el.getAttr "ref" = some r → findXsdElement tree r = none →
      getChildXsdElements tree parent
        = pre.filterMap (resolveChildRef tree)
          ++ none :: post.filterMap (resolveChildRef tree))
    ∧ (el.getAttr "ref" = none → el.getAttr "name" = none →
      getChildXsdElements tree parent
        = pre.filterMap (resolveChildRef tree) ++ post.filterMap (resolveChildRef tree)) := by
  constructor
  · intro r hr hnone
    rw [getChildXsdElements, hshape, List.filterMap_append]
    simp only [List.filterMap_cons, resolveChildRef, hr, hnone]
  · intro hr hn
    rw [getChildXsdElements, hshape, List.filterMap_append]
    simp only [List.filterMap_cons, resolveChildRef, hr, hn]

/-! ### Concrete instances -/

def elemA : Element :=
  { tag := xsdElementTag, attrs := [("name", "a")], nsmap := [], children := [] }

def elemB : Element :=
  { tag := xsdElementTag, attrs := [("name", "b")], nsmap := [], children := [] }

def c1Marker : Element :=
  { tag := schemaTag, attrs := [], nsmap := [], children := [elemA, elemB] }

def c1Root : Element :=
  { tag := schemaTag, attrs := [], nsmap := NSMAP, children := [c1Marker] }

/-- C1 counterexample.  A wrapper marker at the root with hoistable children
`a, b` (in that order) flattens to the child list `[b, a]`: the hoisted
children do not appear in their original relative order, contrary to the
claim. -/
theorem spec_c1_counterexample :
    (flattenNestedSchemas c1Root).children ≠ [elemA, elemB]
      ∧ (flattenNestedSchemas c1Root).children = [elemB, elemA] := by
  have hev : (flattenNestedSchemas c1Root).children = [elemB, elemA] := by
    simp [flattenNestedSchemas, c1Root, c1Marker, hoistLoop, hoistZone, stripChildren,
      elemA, elemB, Element.hasAttr, schemaTag, xsdElementTag, NAMESPACE, XSD_URI]
  refine ⟨?_, hev⟩
  rw [hev]
  intro hcontra
  simp [elemA, elemB] at hcontra

/-- C1 witness: the amended statement evaluated at the counterexample tree. -/
theorem spec_c1_witness :
    (flattenNestedSchemas c1Root).children
      = stripChildren schemaTag (hoistLoop [])
        ++ stripChildren schemaTag
            ((c1Marker.children.filter (fun c => !(c.hasAttr "schemaLocation"))).reverse)
        ++ stripChildren schemaTag (hoistLoop []) :=
  spec_c1 c1Root c1Marker [] [] rfl rfl

/-- A two-file schema: the root document imports the base definitions and
bears a bare inclusion directive for a shared file whose wrapper contains the
named element `reporting-org`. -/
def exImport : Element :=
  { tag := importTag, attrs := [("schemaLocation", "xml.xsd")], nsmap := [], children := [] }

def exIncl : Element :=
  { tag := includeTag, attrs := [("schemaLocation", "shared.xsd")], nsmap := [], children := [] }

def exElemRoot : Element :=
  { tag := xsdElementTag, attrs := [("name", "iati-activities")], nsmap := [], children := [] }

def exElemOrg : Element :=
  { tag := xsdElementTag, attrs := [("name", "reporting-org")], nsmap := [], children := [] }

def exWrapper : Element :=
  { tag := schemaTag, attrs := [], nsmap := NSMAP, children := [exElemOrg] }

def exTree : Element :=
  { tag := schemaTag, attrs := [], nsmap := NSMAP, children := [exImport, exIncl, exElemRoot] }

def exResolve : String → Option Element := fun _ => some exWrapper

def exImportRw : Element :=
  { tag := importTag, attrs := [("schemaLocation", resourcePath "xml")], nsmap := [], children := [] }

def exXiEl : Element := mkXincludeEl "shared.xsd"

def exMid : Element :=
  { tag := schemaTag, attrs := [], nsmap := NSMAP ++ [("xi", XI_URI)],
    children := [exImportRw, exXiEl, exElemRoot] }

def exSubL : List Element := [exImportRw, exWrapper, exElemRoot]

def exT2 : Element :=
  { tag := schemaTag, attrs := [], nsmap := NSMAP ++ [("xi", XI_URI)], children := exSubL }

def exFlat : Element :=
  { tag := schemaTag, attrs := [], nsmap := NSMAP ++ [("xi", XI_URI)],
    children := [exImportRw, exElemOrg, exElemRoot] }

theorem exTree_rewrites : changeIncludeToXinclude exTree = .ok (some exMid) := by
  simp [changeIncludeToXinclude, findChild, insertAfterImport, addNamespace,
    mkXincludeEl, Element.setAttr, Element.hasAttr, Element.getAttr, stripChildren,
    exTree, exImport, exIncl, exElemRoot, exImportRw, exMid, exXiEl, resourcePath,
    includeTag, importTag, schemaTag, xsdElementTag, xiIncludeTag, NAMESPACE, NSMAP,
    XSD_URI, XI_URI]

theorem exMid_xincludes : xinclude exResolve 2 exMid = some exT2 := by
  have hsub : substOnce exResolve exMid.children = some exSubL := by
    simp [substOnce, Element.getAttr, exMid, exImportRw, exXiEl, exWrapper, exElemOrg,
      exResolve, mkXincludeEl, resourcePath, exElemRoot, exSubL,
      includeTag, importTag, schemaTag, xsdElementTag, xiIncludeTag, NAMESPACE, NSMAP,
      XSD_URI, XI_URI]
  have hn1 : noTagB xiIncludeTag exMid.children = false := by
    simp [noTagB, exMid, exImportRw, exXiEl, mkXincludeEl,
      importTag, xiIncludeTag, NAMESPACE, XSD_URI, XI_URI]
  have hn2 : noTagB xiIncludeTag exSubL = true := by
    simp [noTagB, exSubL, exImportRw, exWrapper, exElemOrg, exElemRoot,
      importTag, schemaTag, xsdElementTag, xiIncludeTag, NAMESPACE, XSD_URI, XI_URI]
  have hloop : xincludeLoop exResolve 2 exMid.children = some exSubL := by
    rw [show (2 : Nat) = 1 + 1 from rfl, xincludeLoop_succ, if_neg (by simp [hn1]),
      hsub, Option.some_bind, show (1 : Nat) = 0 + 1 from rfl, xincludeLoop_succ,
      if_pos hn2]
  rw [xinclude, hloop]
  rfl

set_option maxRecDepth 4000 in
theorem exT2_flattens : flattenNestedSchemas exT2 = exFlat := by
  simp [flattenNestedSchemas, hoistLoop, hoistZone, stripChildren, Element.hasAttr,
    exT2, exSubL, exImportRw, exWrapper, exElemOrg, exElemRoot, exFlat,
    importTag, schemaTag, xsdElementTag, NAMESPACE, XSD_URI]

/-- End-to-end run of the flatten pipeline on the two-file example. -/
theorem exTree_flattens : flattenIncludes exResolve 2 exTree = .ok exFlat := by
  rw [flattenIncludes_of exResolve 2 exTree exMid exT2 exTree_rewrites exMid_xincludes,
    exT2_flattens]

def c2Marker : Element :=
  { tag := schemaTag, attrs := [], nsmap := [], children := [] }

def c2Tree : Element :=
  { tag := schemaTag, attrs := [], nsmap := NSMAP, children := [c2Marker] }

/-- C2 counterexample.  A tree with no bare inclusion directive at the root
but with a nested wrapper marker is accepted by construction unchanged: the
pipeline is a no-op and the wrapper marker survives, contradicting the
claimed invariant. -/
theorem spec_c2_counterexample :
    schemaInit (fun _ => some c2Tree) (fun _ => none) 1 "activity-schema.xsd" = .ok c2Tree
      ∧ noTagB schemaTag c2Tree.children = false := by
  constructor
  · simp [schemaInit, flattenIncludes, changeIncludeToXinclude, findChild,
      c2Tree, c2Marker, includeTag, schemaTag, NAMESPACE, XSD_URI]
  · simp [noTagB, c2Tree, c2Marker]

/-- C2 witness: the amended invariant holds on the flattened two-file
example. -/
theorem spec_c2_witness :
    noTagB schemaTag exFlat.children = true
      ∧ noTagB includeTag exFlat.children = true
      ∧ noTagB xiIncludeTag exFlat.children = true :=
  spec_c2 exResolve 2 exTree exFlat
    (by simp [findChild, exTree, exImport, exIncl, exElemRoot,
      includeTag, importTag, xsdElementTag, NAMESPACE, XSD_URI])
    (fun href e h => by
      cases h
      simp [noTagB, exWrapper, exElemOrg, includeTag, schemaTag, xsdElementTag,
        NAMESPACE, XSD_URI])
    exTree_flattens

def c6BadIncl : Element :=
  { tag := includeTag, attrs := [], nsmap := [], children := [] }

def c6Wrapper : Element :=
  { tag := schemaTag, attrs := [], nsmap := [], children := [c6BadIncl] }

def c6Tree : Element :=
  { tag := schemaTag, attrs := [], nsmap := NSMAP, children := [exImport, exIncl] }

def c6Resolve : String → Option Element := fun _ => some c6Wrapper

def c6Mid : Element :=
  { tag := schemaTag, attrs := [], nsmap := NSMAP ++ [("xi", XI_URI)],
    children := [exImportRw, exXiEl] }

def c6SubL : List Element := [exImportRw, c6Wrapper]

def c6T2 : Element :=
  { tag := schemaTag, attrs := [], nsmap := NSMAP ++ [("xi", XI_URI)], children := c6SubL }

def c6Flat : Element :=
  { tag := schemaTag, attrs := [], nsmap := NSMAP ++ [("xi", XI_URI)],
    children := [exImportRw, c6BadIncl] }

set_option maxRecDepth 4000 in
theorem c6Tree_flattens : flattenIncludes c6Resolve 2 c6Tree = .ok c6Flat := by
  have hcx : changeIncludeToXinclude c6Tree = .ok (some c6Mid) := by
    simp [changeIncludeToXinclude, findChild, insertAfterImport, addNamespace,
      mkXincludeEl, Element.setAttr, Element.hasAttr, Element.getAttr, stripChildren,
      c6Tree, exImport, exIncl, exImportRw, c6Mid, exXiEl, resourcePath,
      includeTag, importTag, schemaTag, xsdElementTag, xiIncludeTag, NAMESPACE, NSMAP,
      XSD_URI, XI_URI]
  have hsub : substOnce c6Resolve c6Mid.children = some c6SubL := by
    simp [substOnce, Element.getAttr, c6Mid, exImportRw, exXiEl, c6Wrapper, c6BadIncl,
      c6Resolve, mkXincludeEl, resourcePath, c6SubL,
      includeTag, importTag, schemaTag, xsdElementTag, xiIncludeTag, NAMESPACE, NSMAP,
      XSD_URI, XI_URI]
  have hn1 : noTagB xiIncludeTag c6Mid.children = false := by
    simp [noTagB, c6Mid, exImportRw, exXiEl, mkXincludeEl,
      importTag, xiIncludeTag, NAMESPACE, XSD_URI, XI_URI]
  have hn2 : noTagB xiIncludeTag c6SubL = true := by
    simp [noTagB, c6SubL, exImportRw, c6Wrapper, c6BadIncl,
      importTag, schemaTag, includeTag, xiIncludeTag, NAMESPACE, XSD_URI, XI_URI]
  have hloop : xincludeLoop c6Resolve 2 c6Mid.children = some c6SubL := by
    rw [show (2 : Nat) = 1 + 1 from rfl, xincludeLoop_succ, if_neg (by simp [hn1]),
      hsub, Option.some_bind, show (1 : Nat) = 0 + 1 from rfl, xincludeLoop_succ,
      if_pos hn2]
  have hx : xinclude c6Resolve 2 c6Mid = some c6T2 := by
    rw [xinclude, hloop]
    rfl
  have hfl : flattenNestedSchemas c6T2 = c6Flat := by
    simp [flattenNestedSchemas, hoistLoop, hoistZone, stripChildren, Element.hasAttr,
      c6T2, c6SubL, exImportRw, c6Wrapper, c6BadIncl, c6Flat,
      importTag, schemaTag, includeTag, NAMESPACE, XSD_URI]
  rw [flattenIncludes_of c6Resolve 2 c6Tree c6Mid c6T2 hcx hx, hfl]

/-- C6 counterexample.  Hoisting deposits a bare inclusion directive without
a `schemaLocation` attribute at the root of the flattened tree, and the
second run of the pipeline then fails with a `KeyError` instead of returning
the tree unchanged: the pipeline is not idempotent on this flattened tree. -/
theorem spec_c6_counterexample :
    flattenIncludes c6Resolve 2 c6Tree = .ok c6Flat
      ∧ flattenIncludes c6Resolve 2 c6Flat = .error .keyErr
      ∧ (Except.error PyErr.keyErr : Except PyErr Element) ≠ .ok c6Flat := by
  refine ⟨c6Tree_flattens, ?_, by simp⟩
  simp [flattenIncludes, changeIncludeToXinclude, findChild, Element.getAttr,
    c6Flat, exImportRw, c6BadIncl, includeTag, importTag, NAMESPACE, XSD_URI]

/-- C6 witness: the amended idempotence statement on the well-behaved
two-file example. -/
theorem spec_c6_witness : flattenIncludes exResolve 2 exFlat = .ok exFlat :=
  spec_c6 exResolve 2 exTree exFlat exTree_flattens
    (by
      intro c hc
      simp only [exFlat] at hc
      simp only [List.mem_cons, List.not_mem_nil, or_false] at hc
      rcases hc with h | h | h <;> subst h <;> decide)

/-- C3 witness: the rewrite theorem evaluated on the two-file example. -/
theorem spec_c3_witness :
    changeIncludeToXinclude exTree
      = .ok (some { exTree with
          nsmap := exTree.nsmap ++ [("xi", XI_URI)],
          children :=
            stripChildren includeTag []
              ++ { exImport.setAttr "schemaLocation" (resourcePath "xml") with
                    children := stripChildren includeTag exImport.children }
                :: mkXincludeEl "shared.xsd"
                :: stripChildren includeTag [exIncl, exElemRoot] }) :=
  spec_c3 exTree exIncl exImport "shared.xsd" [] [exIncl, exElemRoot]
    rfl rfl rfl rfl (by simp)

/-- A flat schema defining `activity` whose shape references the top-level
element `title` and defines `description` inline. -/
def navTarget : Element :=
  { tag := xsdElementTag, attrs := [("name", "title")], nsmap := [], children := [] }

def navRefChild : Element :=
  { tag := xsdElementTag, attrs := [("ref", "title")], nsmap := [], children := [] }

def navValChild : Element :=
  { tag := xsdElementTag, attrs := [("name", "description")], nsmap := [], children := [] }

def navSeq : Element :=
  { tag := sequenceTag, attrs := [], nsmap := [], children := [navRefChild, navValChild] }

def navCT : Element :=
  { tag := complexTypeTag, attrs := [], nsmap := [], children := [navSeq] }

def navParent : Element :=
  { tag := xsdElementTag, attrs := [("name", "activity")], nsmap := [], children := [navCT] }

def navTree : Element :=
  { tag := schemaTag, attrs := [], nsmap := NSMAP, children := [navParent, navTarget] }

/-- C4 witness: the reference child of `activity` is resolved through the
by-name lookup of `title` and the by-value child is kept as-is. -/
theorem spec_c4_witness :
    getChildXsdElements navTree navParent
      = List.filterMap (resolveChildRef navTree) []
        ++ findXsdElement navTree "title"
          :: List.filterMap (resolveChildRef navTree) [navValChild] :=
  (spec_c4 navTree navParent [] [navValChild] navRefChild rfl).1 "title" rfl

/-- A schema whose parent shape has a dangling reference and an anonymous
child definition. -/
def nav2RefChild : Element :=
  { tag := xsdElementTag, attrs := [("ref", "missing")], nsmap := [], children := [] }

def nav2Bare : Element :=
  { tag := xsdElementTag, attrs := [], nsmap := [], children := [] }

def nav2Seq : Element :=
  { tag := sequenceTag, attrs := [], nsmap := [], children := [nav2RefChild, nav2Bare] }

def nav2CT : Element :=
  { tag := complexTypeTag, attrs := [], nsmap := [], children := [nav2Seq] }

def nav2Parent : Element :=
  { tag := xsdElementTag, attrs := [("name", "organisation")], nsmap := [], children := [nav2CT] }

def nav2Tree : Element :=
  { tag := schemaTag, attrs := [], nsmap := NSMAP, children := [nav2Parent] }

/-- C10 witness: a dangling reference contributes `none` at its position. -/
theorem spec_c10_witness :
    getChildXsdElements nav2Tree nav2Parent
      = List.filterMap (resolveChildRef nav2Tree) []
        ++ none :: List.filterMap (resolveChildRef nav2Tree) [nav2Bare] :=
  (spec_c10 nav2Tree nav2Parent [] [nav2Bare] nav2RefChild rfl).1 "missing" rfl
    (by simp [findXsdElement, findInForest_nil, findInForest_cons, Element.getAttr,
      nav2Tree, nav2Parent, nav2CT, nav2Seq, nav2RefChild, nav2Bare,
      schemaTag, xsdElementTag, complexTypeTag, sequenceTag, NAMESPACE, XSD_URI])

/-- C7 witness: construction of a schema with no inclusion directive returns
the loaded tree itself. -/
theorem spec_c7_witness :
    schemaInit (fun _ => some navTree) (fun _ => none) 1 "flat-schema.xsd" = .ok navTree :=
  spec_c7 (fun _ => some navTree) (fun _ => none) 1 "flat-schema.xsd" navTree rfl
    (by decide)

/-- C8 witness: a failing loader produces the schema error with the logged
message naming the path. -/
theorem spec_c8_witness :
    schemaInit (fun _ => none) (fun _ => none) 1 "missing-file.xsd"
      = .error (.schemaErr, [logMsg "missing-file.xsd"]) :=
  (spec_c8 (fun _ => none) (fun _ => none) 1).1 "missing-file.xsd" rfl

def c9Lost : Element :=
  { tag := xsdElementTag, attrs := [("name", "lost")], nsmap := [], children := [] }

def c9Nested : Element :=
  { tag := schemaTag, attrs := [], nsmap := [], children := [c9Lost] }

def c9Keep : Element :=
  { tag := xsdElementTag, attrs := [("name", "keep")], nsmap := [], children := [] }

def c9Holder : Element :=
  { tag := complexTypeTag, attrs := [], nsmap := [], children := [c9Keep, c9Nested] }

def c9Root : Element :=
  { tag := schemaTag, attrs := [], nsmap := NSMAP, children := [c9Holder] }

/-- C9 witness: a marker nested below a non-marker direct child vanishes
with its whole subtree — flattening gives the same tree as if the marker had
been deleted beforehand. -/
theorem spec_c9_witness :
    flattenNestedSchemas c9Root
      = flattenNestedSchemas
          { c9Root with children := [{ c9Holder with children := [c9Keep] }] } :=
  spec_c9 c9Root c9Nested [{ c9Holder with children := [c9Keep] }] rfl
    (NestedRemove.inside c9Holder [c9Keep] [] (DeepRemove.here [c9Keep] []))

end Iati
